import Mathlib

/-!
# Tag registry and numeric context of the EDN decoder (`edn_tags.go`)

A shallow embedding of `src/edn_tags.go`:

* the part of Go's `reflect` package the file calls (`ValueOf`, `Value.Type`,
  `Type.Kind`, `NumIn`, `NumOut`, `Out`, `Implements`), with panics explicit;
* `TagMap`, `addVal`, `AddTagFn`, `AddTagStruct`, the package-level wrappers and
  `init`;
* `MathContext` and `GlobalMathContext`;
* the lexer, the discard handling and the scalar decoding of the decoder, which
  are not part of the given sources and are modelled from the specification.

The `sync.RWMutex` embedded in `TagMap` is not modelled: every function is
embedded as one sequential call, and `addVal` holds the lock for the whole
read-modify-write of the map.
-/

namespace Edn

/-! ## Go runtime: results, panics, `reflect` -/

/-- A Go call either returns or panics. -/
inductive Outcome (α : Type) where
  | ret (a : α)
  | panic (msg : String)

/-- The kinds of `reflect.Kind`, in declaration order. -/
inductive Kind where
  | Invalid | Bool | Int | Int8 | Int16 | Int32 | Int64
  | Uint | Uint8 | Uint16 | Uint32 | Uint64 | Uintptr
  | Float32 | Float64 | Complex64 | Complex128
  | Array | Chan | Func | Interface | Map | Pointer | Slice | String | Struct
  | UnsafePointer
  deriving DecidableEq, Repr

/-- A method of a method set: its name and its signature, rendered as text. -/
structure Method where
  name : String
  sig : String
  deriving DecidableEq, Repr

/-- A Go type as `reflect.Type` exposes it: kind, name, method set and, for
function types, the parameter and result types. The kind of a type is never
`Invalid`; that is the kind of the zero `reflect.Value` only. -/
inductive RType where
  | mk (kind : Kind) (valid : kind ≠ Kind.Invalid) (name : String)
      (methods : List Method) (ins : List RType) (outs : List RType)

/-- The call `t.Kind()`. -/
def RType.Kind : RType → Kind
  | .mk k _ _ _ _ _ => k

/-- The method set of a type. -/
def RType.methods : RType → List Method
  | .mk _ _ _ ms _ _ => ms

/-- The parameter types of a function type. -/
def RType.ins : RType → List RType
  | .mk _ _ _ _ ins _ => ins

/-- The result types of a function type. -/
def RType.outs : RType → List RType
  | .mk _ _ _ _ _ outs => outs

/-- The call `t.NumIn()`; it panics when `t` is not a function type. -/
def RType.NumIn : RType → Outcome Nat
  | .mk k _ _ _ ins _ =>
    if k = Kind.Func then .ret ins.length else .panic "reflect: NumIn of non-func type"

/-- The call `t.NumOut()`; it panics when `t` is not a function type. -/
def RType.NumOut : RType → Outcome Nat
  | .mk k _ _ _ _ outs =>
    if k = Kind.Func then .ret outs.length else .panic "reflect: NumOut of non-func type"

/-- The call `t.Out(i)`; it panics when `t` is not a function type or `i` is out
of range. -/
def RType.Out : RType → Nat → Outcome RType
  | .mk k _ _ _ _ outs, i =>
    if k = Kind.Func then
      match outs.get? i with
      | some u => .ret u
      | none => .panic "reflect: Func index out of bounds"
    else .panic "reflect: Out of non-func type"

/-- The call `t.Implements(u)`: every method of the interface type `u` is in the
method set of `t`; it panics when `u` is not an interface type. -/
def RType.Implements (t u : RType) : Outcome Bool :=
  if u.Kind = Kind.Interface then .ret (u.methods.all (fun m => decide (m ∈ t.methods)))
  else .panic "reflect: non-interface type passed to Type.Implements"

/-- A non-nil `interface{}`: the dynamic type and a word standing for the data. -/
structure Iface where
  typ : RType
  word : Nat

/-- A Go `interface{}` argument; `none` is the nil interface value. -/
abbrev Interface := Option Iface

/-- A `reflect.Value`; `typ = none` is the zero Value. -/
structure Value where
  typ : Option RType
  word : Nat

/-- The call `reflect.ValueOf(i)`: `ValueOf(nil)` is the zero Value. -/
def ValueOf : Interface → Value
  | none => ⟨none, 0⟩
  | some i => ⟨some i.typ, i.word⟩

/-- The call `v.Type()`, which panics on the zero Value. -/
def Value.Type (v : Value) : Outcome RType :=
  match v.typ with
  | none => .panic "reflect: call of reflect.Value.Type on zero Value"
  | some t => .ret t

/-- The call `v.Kind()`: the kind of the zero Value is `Invalid`. -/
def Value.Kind (v : Value) : Kind :=
  match v.typ with
  | none => Kind.Invalid
  | some t => t.Kind

/-! ## `edn_tags.go` -/

/-- The error values declared by the package. -/
inductive Err where
  | ErrNotFunc | ErrMismatchArities | ErrNotConcrete | ErrTagOverwritten
  deriving DecidableEq, Repr

/-- A Go `error` result; `none` is `nil`. -/
abbrev error := Option Err

/-- The struct `TagMap`; `m = none` is the nil map of the zero value. -/
structure TagMap where
  m : Option (AList (fun _ : String => Value))

/-- The zero value `var globalTags TagMap`. -/
def globalTags : TagMap := ⟨none⟩

/-- The interface type `error`: `reflect.TypeOf((*error)(nil)).Elem()`. -/
def errorType : RType :=
  .mk Kind.Interface (by decide) "error" [⟨"Error", "func() string"⟩] [] []

/-- The method `(*TagMap).addVal`: allocate the map when nil, note whether the
name is present, store the value, report an overwrite. -/
def TagMap.addVal (tm : TagMap) (name : String) (val : Value) : TagMap × error :=
  let m := match tm.m with
    | none => (∅ : AList (fun _ : String => Value))
    | some m => m
  let ok := (m.lookup name).isSome
  let tm1 : TagMap := ⟨some (m.insert name val)⟩
  if ok then (tm1, some Err.ErrTagOverwritten) else (tm1, none)

/-- The method `(*TagMap).AddTagFn`. The condition on line 40 is evaluated left
to right with short-circuit `||`. -/
def TagMap.AddTagFn (tm : TagMap) (tagname : String) (fn : Interface) :
    Outcome (TagMap × error) :=
  let rfn := ValueOf fn
  match rfn.Type with
  | .panic msg => .panic msg
  | .ret rtyp =>
    if rtyp.Kind ≠ Kind.Func then .ret (tm, some Err.ErrNotFunc)
    else
      match rtyp.NumIn with
      | .panic msg => .panic msg
      | .ret nin =>
        if nin ≠ 1 then .ret (tm, some Err.ErrMismatchArities)
        else
          match rtyp.NumOut with
          | .panic msg => .panic msg
          | .ret nout =>
            if nout ≠ 2 then .ret (tm, some Err.ErrMismatchArities)
            else
              match rtyp.Out 1 with
              | .panic msg => .panic msg
              | .ret o =>
                match o.Implements errorType with
                | .panic msg => .panic msg
                | .ret impl =>
                  if !impl then .ret (tm, some Err.ErrMismatchArities)
                  else .ret (tm.addVal tagname rfn)

/-- The method `(*TagMap).AddTagStruct`. -/
def TagMap.AddTagStruct (tm : TagMap) (tagname : String) (val : Interface) :
    Outcome (TagMap × error) :=
  let rstruct := ValueOf val
  match rstruct.Type with
  | .panic msg => .panic msg
  | .ret t =>
    match t.Kind with
    | Kind.Invalid | Kind.Chan | Kind.Func | Kind.Interface | Kind.UnsafePointer =>
      .ret (tm, some Err.ErrNotConcrete)
    | _ => .ret (tm.addVal tagname rstruct)

/-- The package-level `AddTagFn`, on the global TagMap. -/
def AddTagFn (globalTags : TagMap) (tagname : String) (fn : Interface) :
    Outcome (TagMap × error) :=
  globalTags.AddTagFn tagname fn

/-- The package-level `AddTagStruct`, on the global TagMap. -/
def AddTagStruct (globalTags : TagMap) (tagname : String) (val : Interface) :
    Outcome (TagMap × error) :=
  globalTags.AddTagStruct tagname val

/-- The type `string`. -/
def stringType : RType := .mk Kind.String (by decide) "string" [] [] []

/-- The type `time.Time`, a struct; of its method set only `String` is listed. -/
def timeType : RType :=
  .mk Kind.Struct (by decide) "time.Time" [⟨"String", "func() string"⟩] [] []

/-- The type `[]byte`. -/
def bytesType : RType := .mk Kind.Slice (by decide) "[]uint8" [] [] []

/-- The function literal registered for "inst": `func(string) (time.Time, error)`. -/
def instFn : Interface :=
  some ⟨.mk Kind.Func (by decide) "func(string) (time.Time, error)" []
    [stringType] [timeType, errorType], 1⟩

/-- The method value `base64.StdEncoding.DecodeString`: `func(string) ([]byte, error)`. -/
def base64Fn : Interface :=
  some ⟨.mk Kind.Func (by decide) "func(string) ([]uint8, error)" []
    [stringType] [bytesType, errorType], 2⟩

/-- A user-defined pointer type `*myErr` with the method `Error() string`; it
implements `error` and is a different type from `error`. -/
def myErrPtrType : RType :=
  .mk Kind.Pointer (by decide) "*myErr" [⟨"Error", "func() string"⟩] [] []

/-- A function value of type `func(string) (string, *myErr)`. -/
def myErrFn : Interface :=
  some ⟨.mk Kind.Func (by decide) "func(string) (string, *myErr)" []
    [stringType] [stringType, myErrPtrType], 4⟩

/-- The function `init`, as a transformer of the global TagMap: it panics when a
registration reports an error. -/
def init (globalTags : TagMap) : Outcome TagMap :=
  match AddTagFn globalTags "inst" instFn with
  | .panic msg => .panic msg
  | .ret (g1, err) =>
    match err with
    | some _ => .panic "panic(err)"
    | none =>
      match AddTagFn g1 "base64" base64Fn with
      | .panic msg => .panic msg
      | .ret (g2, err) =>
        match err with
        | some _ => .panic "panic(err)"
        | none => .ret g2

/-- The rounding modes of `math/big.RoundingMode`, in declaration order. -/
inductive RoundingMode where
  | ToNearestEven | ToNearestAway | ToZero | AwayFromZero | ToNegativeInf | ToPositiveInf
  deriving DecidableEq, Repr

/-- The struct `MathContext`; `Precision` is a Go `uint`. -/
structure MathContext where
  Precision : Nat
  Mode : RoundingMode
  deriving DecidableEq, Repr

/-- The package variable `GlobalMathContext`, as initialised. -/
def GlobalMathContext : MathContext :=
  { Mode := RoundingMode.ToNearestEven, Precision := 192 }

/-- The precision and mode `TestBigFloat` passes to `big.ParseFloat` to build its
expected values (`decoder_test.go`, line 57). -/
def TestBigFloat.context : MathContext :=
  { Precision := 192, Mode := RoundingMode.ToNearestEven }

/-- Two variables of type `MathContext`: the package variable
`GlobalMathContext` (field `global`) and a second variable `c` holding a copy. A struct variable holds its fields by value, so
each variable has its own `Precision` and `Mode`. -/
structure Vars where
  global : MathContext
  c : MathContext

/-- The assignment `c = GlobalMathContext`, a copy of the struct value. -/
def Vars.copyGlobal (s : Vars) : Vars :=
  { s with c := s.global }

/-- The assignment `c.Precision = p`. -/
def Vars.setPrecision (s : Vars) (p : Nat) : Vars :=
  { s with c := { s.c with Precision := p } }

/-- The assignment `c.Mode = m`. -/
def Vars.setMode (s : Vars) (m : RoundingMode) : Vars :=
  { s with c := { s.c with Mode := m } }

/-- The package state at start-up, with `c` not yet assigned (zero value). -/
def Vars.start : Vars :=
  { global := GlobalMathContext, c := ⟨0, RoundingMode.ToNearestEven⟩ }

/-! ## Reading the registry -/

/-- The lookup `tm.m[name]` with its `ok` flag; a nil map has no entries. -/
def TagMap.get (tm : TagMap) (name : String) : Option Value :=
  match tm.m with
  | none => none
  | some m => m.lookup name

/-- The count `len(tm.m)`; a nil map has length 0. -/
def TagMap.len (tm : TagMap) : Nat :=
  match tm.m with
  | none => 0
  | some m => m.entries.length

/-- The map `addVal` works on: the allocated map, or an empty one for nil. -/
def TagMap.entriesOrEmpty (tm : TagMap) : AList (fun _ : String => Value) :=
  match tm.m with
  | none => ∅
  | some m => m

/-! ## Vocabulary of the statements -/

/-- The result types of `t` end in a type that implements `error`: `t` has a
result at index 1 whose method set holds every method of `errorType`. -/
def secondResultIsError (t : RType) : Prop :=
  ∃ o, t.outs.get? 1 = some o ∧ ∀ m ∈ errorType.methods, m ∈ o.methods

/-- The signature `func(T) (U, error)`: exactly one parameter, exactly two
results, the second being an error. -/
def hasConverterSignature (t : RType) : Prop :=
  t.ins.length = 1 ∧ t.outs.length = 2 ∧ secondResultIsError t

/-- The kinds `AddTagStruct` documents as not concrete. -/
def nonConcreteKinds : List Kind :=
  [Kind.Chan, Kind.Func, Kind.Interface, Kind.UnsafePointer]

/-- The two ways of registering a value. -/
inductive Route where
  | viaFn
  | viaStruct
  deriving DecidableEq, Repr

/-- Registration by either route. -/
def register (r : Route) (tm : TagMap) (tagname : String) (v : Interface) :
    Outcome (TagMap × error) :=
  match r with
  | .viaFn => tm.AddTagFn tagname v
  | .viaStruct => tm.AddTagStruct tagname v

/-- The value passes the validation of the route: for `AddTagFn` a non-nil
function with the converter signature, for `AddTagStruct` a non-nil value whose
kind is not one of the non-concrete kinds. -/
def passesValidation (r : Route) (v : Interface) : Prop :=
  match r with
  | .viaFn => ∃ i, v = some i ∧ i.typ.Kind = Kind.Func ∧ hasConverterSignature i.typ
  | .viaStruct => ∃ i, v = some i ∧ i.typ.Kind ∉ nonConcreteKinds

/-! ## The decoder's reading of forms and discards -/

/-- Modelled from the spec: the scalar literals of the Token union of §3 (the
lexer is not among the given sources). A float or big-decimal literal keeps its
exact decimal value `mant * 10 ^ exp10`; rounding happens when it is decoded. -/
inductive Atom where
  | nil
  | bool (b : Bool)
  | int (n : Int)
  | bigInt (n : Int)
  | float (mant : Int) (exp10 : Int)
  | bigDecimal (mant : Int) (exp10 : Int)
  | str (s : String)
  | char (c : Char)
  | symbol (name : String)
  | keyword (name : String)
  deriving DecidableEq, Repr

/-- Modelled from the spec: the four collection forms of §3 (the lexer is not
among the given sources): list `(`, vector `[`, map `{`, set `#{`. -/
inductive Bracket where
  | list | vector | map | set
  deriving DecidableEq, Repr

/-- Modelled from the spec: the closing delimiters `)`, `]`, `}` of §4.1 (the
lexer is not among the given sources). -/
inductive Closer where
  | paren | square | curly
  deriving DecidableEq, Repr

/-- Modelled from the spec: the closing delimiter of each collection form (the
lexer is not among the given sources); maps and sets both close with `}`. -/
def Bracket.closer : Bracket → Closer
  | .list => .paren
  | .vector => .square
  | .map => .curly
  | .set => .curly

/-- Modelled from the spec: the Token union of §3 (the lexer is not among the
given sources); end-of-input is the end of the token list. The raw text and
position a token carries serve error reporting only; errors are modelled as
failure without a message, so they are left out. -/
inductive Token where
  | atom (a : Atom)
  | opening (b : Bracket)
  | closing (c : Closer)
  | tag (name : String)
  | discard
  deriving DecidableEq, Repr

/-- Modelled from the spec: whitespace of §4.1, commas included (the lexer is not
among the given sources). -/
def isWhitespace (c : Char) : Bool :=
  c = ' ' || c = '\t' || c = '\n' || c = '\r' || c = ','

/-- Modelled from the spec: the structural single-character tokens of §4.1 (the
lexer is not among the given sources). -/
def delimToken (c : Char) : Option Token :=
  if c = '(' then some (.opening .list)
  else if c = ')' then some (.closing .paren)
  else if c = '[' then some (.opening .vector)
  else if c = ']' then some (.closing .square)
  else if c = '{' then some (.opening .map)
  else if c = '}' then some (.closing .curly)
  else none

/-- Modelled from the spec: the characters that end a symbol, keyword, number,
character or tag name in §4.1 (the lexer is not among the given sources):
whitespace, a delimiter, a string quote or a comment. -/
def endsWord (c : Char) : Bool :=
  isWhitespace c || (delimToken c).isSome || c = '"' || c = ';'

/-- Modelled from the spec: the non-alphanumeric symbol constituents of §4.1 (the
lexer is not among the given sources); the spec leaves the set to be defined,
the set of the EDN format is taken. -/
def isSymbolPunct (c : Char) : Bool :=
  c = '.' || c = '*' || c = '+' || c = '!' || c = '-' || c = '_' || c = '?' ||
  c = '$' || c = '%' || c = '&' || c = '=' || c = '<' || c = '>'

/-- Modelled from the spec: the text of a symbol, keyword name or tag name of §4.1
(the lexer is not among the given sources): not empty, not starting with a
digit, nor with `.`, `+` or `-` and then a digit, made of alphanumeric
characters and symbol constituents, `:` and `#` past the first character, and
at most one `/` between namespace and name. -/
def validName (w : List Char) : Bool :=
  match w with
  | [] => false
  | c :: rest =>
    (c.isAlpha || isSymbolPunct c || c = '/') &&
    !((c = '.' || c = '+' || c = '-') && (rest.head?.map Char.isDigit = some true)) &&
    rest.all (fun d => d.isAlphanum || isSymbolPunct d || d = ':' || d = '#' || d = '/') &&
    decide (w.count '/' ≤ 1)

/-- Modelled from the spec: the value of a run of decimal digits (§4.1; the lexer
is not among the given sources). -/
def digitsValue (cs : List Char) : Nat :=
  cs.foldl (fun n c => 10 * n + (c.toNat - '0'.toNat)) 0

/-- Modelled from the spec: the optional sign of a number (§4.1; the lexer is not
among the given sources): whether it is negative, and the text after it. -/
def takeSign : List Char → Bool × List Char
  | '-' :: rest => (true, rest)
  | '+' :: rest => (false, rest)
  | cs => (false, cs)

/-- Modelled from the spec: a number with its sign (§4.1; the lexer is not among
the given sources). -/
def signed (neg : Bool) (n : Nat) : Int :=
  if neg then - (n : Int) else (n : Int)

/-- Modelled from the spec: the optional fraction `.digits` of the decimal syntax
of §4.1 (the lexer is not among the given sources): its digits and the text
after it. -/
def parseFraction : List Char → Option (List Char × List Char)
  | '.' :: rest =>
    if rest.takeWhile Char.isDigit = [] then none
    else some (rest.takeWhile Char.isDigit, rest.dropWhile Char.isDigit)
  | cs => some ([], cs)

/-- Modelled from the spec: the optional exponent `e±digits` of the exponent
syntax of §4.1 (the lexer is not among the given sources): its value and the
text after it. -/
def parseExponent : List Char → Option (Option Int × List Char)
  | [] => some (none, [])
  | c :: rest =>
    if c = 'e' || c = 'E' then
      if (takeSign rest).2.takeWhile Char.isDigit = [] then none
      else some (some (signed (takeSign rest).1
          (digitsValue ((takeSign rest).2.takeWhile Char.isDigit))),
        (takeSign rest).2.dropWhile Char.isDigit)
    else some (none, c :: rest)

/-- Modelled from the spec: a numeric literal of §4.1 (the lexer is not among the
given sources): optional sign and digits are an integer, with a trailing `N` a
big integer; digits with a fraction or an exponent are a float, with a trailing
`M` (with or without fraction and exponent) a big decimal. Anything else is a
syntax error. Decimal digits only are read; a leading zero changes nothing. -/
def parseNumber (w : List Char) : Option Atom :=
  let neg := (takeSign w).1
  let body := (takeSign w).2
  let intDigits := body.takeWhile Char.isDigit
  let afterInt := body.dropWhile Char.isDigit
  if intDigits = [] then none
  else if afterInt = [] then some (.int (signed neg (digitsValue intDigits)))
  else if afterInt = ['N'] then some (.bigInt (signed neg (digitsValue intDigits)))
  else
    match parseFraction afterInt with
    | none => none
    | some (fracDigits, afterFrac) =>
      match parseExponent afterFrac with
      | none => none
      | some (expo, afterExp) =>
        let mant := signed neg (digitsValue (intDigits ++ fracDigits))
        let exp10 := expo.getD 0 - (fracDigits.length : Int)
        if afterExp = [] then some (.float mant exp10)
        else if afterExp = ['M'] then some (.bigDecimal mant exp10)
        else none

/-- Modelled from the spec: the token of a word of §4.1 (the lexer is not among
the given sources): `nil`, `true`, `false`, a keyword after `:`, a number when
it starts with a digit or with a sign and a digit, a symbol otherwise. -/
def classifyWord (w : List Char) : Option Token :=
  if w = "nil".toList then some (.atom .nil)
  else if w = "true".toList then some (.atom (.bool true))
  else if w = "false".toList then some (.atom (.bool false))
  else
    match w with
    | [] => none
    | ':' :: rest =>
      if validName rest then some (.atom (.keyword (String.mk rest))) else none
    | c :: rest =>
      if c.isDigit || ((c = '-' || c = '+') && (rest.head?.map Char.isDigit = some true)) then
        (parseNumber w).map Token.atom
      else if validName w then some (.atom (.symbol (String.mk w)))
      else none

/-- Modelled from the spec: the value of a hexadecimal digit, for the unicode
escapes of §4.1 (the lexer is not among the given sources). -/
def hexValue (c : Char) : Option Nat :=
  if c.isDigit then some (c.toNat - '0'.toNat)
  else if 'a'.toNat ≤ c.toNat ∧ c.toNat ≤ 'f'.toNat then some (c.toNat - 'a'.toNat + 10)
  else if 'A'.toNat ≤ c.toNat ∧ c.toNat ≤ 'F'.toNat then some (c.toNat - 'A'.toNat + 10)
  else none

/-- Modelled from the spec: the character of a unicode escape with four
hexadecimal digits (§4.1; the lexer is not among the given sources). -/
def unicodeChar (digits : List Char) : Option Char :=
  match digits.mapM hexValue with
  | some [a, b, c, d] => some (Char.ofNat (((a * 16 + b) * 16 + c) * 16 + d))
  | _ => none

/-- Modelled from the spec: a character literal of §4.1 after its backslash (the
lexer is not among the given sources): one literal character, a named escape or
a unicode escape. -/
def classifyChar (w : List Char) : Option Token :=
  match w with
  | [c] => some (.atom (.char c))
  | 'u' :: digits => (unicodeChar digits).map (fun c => .atom (.char c))
  | _ =>
    if w = "newline".toList then some (.atom (.char '\n'))
    else if w = "space".toList then some (.atom (.char ' '))
    else if w = "tab".toList then some (.atom (.char '\t'))
    else if w = "return".toList then some (.atom (.char '\r'))
    else none

/-- Modelled from the spec: the one-character string escapes `\n`, `\t`, `\\`,
`\"` of §4.1 (the lexer is not among the given sources); the unicode escape is
read by the lexer states. -/
def unescape (c : Char) : Option Char :=
  if c = 'n' then some '\n'
  else if c = 't' then some '\t'
  else if c = '\\' then some '\\'
  else if c = '"' then some '"'
  else none

/-- Modelled from the spec: what the lexer of §4.1 is in the middle of (the lexer
is not among the given sources); the characters read so far are kept reversed,
the hexadecimal digits of a unicode escape in order. -/
inductive LexState where
  | idle
  | word (rev : List Char)
  | hash
  | tag (rev : List Char)
  | comment
  | str (rev : List Char)
  | strEsc (rev : List Char)
  | strUni (rev : List Char) (digits : List Char)
  | char (rev : List Char)
  deriving DecidableEq, Repr

/-- Modelled from the spec: a character met between two tokens (§4.1; the lexer
is not among the given sources). -/
def startToken (c : Char) : LexState × List Token :=
  if isWhitespace c then (.idle, [])
  else if c = ';' then (.comment, [])
  else if c = '"' then (.str [], [])
  else if c = '\\' then (.char [], [])
  else if c = '#' then (.hash, [])
  else match delimToken c with
    | some t => (.idle, [t])
    | none => (.word [c], [])

/-- Modelled from the spec: the tag marker `#<tagname>` of §4.1 (the lexer is not
among the given sources): the name is a symbol text starting with a letter. -/
def classifyTag (w : List Char) : Option Token :=
  if validName w && (w.head?.map Char.isAlpha = some true) then some (.tag (String.mk w))
  else none

/-- Modelled from the spec: one character of lexing (§4.1; the lexer is not among
the given sources): the next state and the tokens completed, or a syntax error. -/
def lexStep : LexState → Char → Option (LexState × List Token)
  | .idle, c => some (startToken c)
  | .word rev, c =>
    if endsWord c then
      (classifyWord rev.reverse).map (fun t => ((startToken c).1, t :: (startToken c).2))
    else some (.word (c :: rev), [])
  | .hash, c =>
    if c = '_' then some (.idle, [.discard])
    else if c = '{' then some (.idle, [.opening .set])
    else if endsWord c then none
    else some (.tag [c], [])
  | .tag rev, c =>
    if endsWord c then
      (classifyTag rev.reverse).map (fun t => ((startToken c).1, t :: (startToken c).2))
    else some (.tag (c :: rev), [])
  | .comment, c => if c = '\n' then some (.idle, []) else some (.comment, [])
  | .str rev, c =>
    if c = '"' then some (.idle, [.atom (.str (String.mk rev.reverse))])
    else if c = '\\' then some (.strEsc rev, [])
    else some (.str (c :: rev), [])
  | .strEsc rev, c =>
    if c = 'u' then some (.strUni rev [], [])
    else (unescape c).map (fun d => (.str (d :: rev), []))
  | .strUni rev digits, c =>
    if digits.length < 3 then
      if (hexValue c).isSome then some (.strUni rev (digits ++ [c]), []) else none
    else (unicodeChar (digits ++ [c])).map (fun d => (.str (d :: rev), []))
  | .char rev, c =>
    if rev = [] then some (.char [c], [])
    else if endsWord c then
      (classifyChar rev.reverse).map (fun t => ((startToken c).1, t :: (startToken c).2))
    else some (.char (c :: rev), [])

/-- Modelled from the spec: the end of the input (§4.1; the lexer is not among the
given sources): a pending word, tag or character is completed, an unterminated
string is a fatal error. -/
def lexEnd : LexState → Option (List Token)
  | .idle => some []
  | .word rev => (classifyWord rev.reverse).map (fun t => [t])
  | .hash => none
  | .tag rev => (classifyTag rev.reverse).map (fun t => [t])
  | .comment => some []
  | .str _ => none
  | .strEsc _ => none
  | .strUni _ _ => none
  | .char rev => (classifyChar rev.reverse).map (fun t => [t])

/-- Modelled from the spec: the Lexer of §4.1 run over a stretch of text (the
lexer is not among the given sources): the state reached and the tokens
completed on the way. -/
def lexRun : LexState → List Char → Option (LexState × List Token)
  | st, [] => some (st, [])
  | st, c :: cs =>
    match lexStep st c with
    | none => none
    | some (st1, out) =>
      match lexRun st1 cs with
      | none => none
      | some (st2, more) => some (st2, out ++ more)

/-- Modelled from the spec: the Lexer of §4.1 run to the end of the input (the
lexer is not among the given sources). -/
def lexFrom (st : LexState) (cs : List Char) : Option (List Token) :=
  match lexRun st cs with
  | none => none
  | some (st1, out) =>
    match lexEnd st1 with
    | none => none
    | some last => some (out ++ last)

/-- Modelled from the spec: the token sequence of an input text (§4.1; the lexer
is not among the given sources). -/
def lex (input : String) : Option (List Token) :=
  lexFrom .idle input.toList

/-- Modelled from the spec: a decoded form in its dynamic shape (§3 and the last
case of §4.2 step 4; the value decoder is not among the given sources). A tagged
form is kept as the pair of tag name and inner form. -/
inductive Form where
  | atom (a : Atom)
  | coll (b : Bracket) (items : List Form)
  | tagged (tag : String) (inner : Form)

mutual
/-- Modelled from the spec: the Discard Handler of §4.3 (the decoder is not among
the given sources): consume exactly the next complete form, with the tag prefixes
on it and the discards met on the way; no value is produced. -/
def skipForm : Nat → List Token → Option (List Token)
  | 0, _ => none
  | _ + 1, [] => none
  | fuel + 1, .discard :: ts =>
    match skipForm fuel ts with
    | none => none
    | some rest => skipForm fuel rest
  | fuel + 1, .tag _ :: ts => skipForm fuel ts
  | _ + 1, .atom _ :: ts => some ts
  | fuel + 1, .opening b :: ts => skipItems fuel b ts
  | _ + 1, .closing _ :: _ => none
/-- Modelled from the spec: the Discard Handler of §4.3 inside a collection (the
decoder is not among the given sources): consume the items up to and including
the matching closing delimiter. -/
def skipItems : Nat → Bracket → List Token → Option (List Token)
  | 0, _, _ => none
  | _ + 1, _, [] => none
  | _ + 1, b, .closing c :: ts => if c = b.closer then some ts else none
  | fuel + 1, b, .discard :: ts =>
    match skipForm fuel ts with
    | none => none
    | some rest => skipItems fuel b rest
  | fuel + 1, b, t :: ts =>
    match skipForm fuel (t :: ts) with
    | none => none
    | some rest => skipItems fuel b rest
end

mutual
/-- Modelled from the spec: the Value Decoder of §4.2 reading the next form into
its dynamic shape (the decoder is not among the given sources): a discard marker
is handed to the Discard Handler and reading goes on with the following form
(step 2), a tag wraps the form read after it (step 3), a map literal with an odd
number of forms is a structural error. -/
def readForm : Nat → List Token → Option (Form × List Token)
  | 0, _ => none
  | _ + 1, [] => none
  | fuel + 1, .discard :: ts =>
    match skipForm fuel ts with
    | none => none
    | some rest => readForm fuel rest
  | fuel + 1, .tag name :: ts =>
    match readForm fuel ts with
    | none => none
    | some (inner, rest) => some (.tagged name inner, rest)
  | _ + 1, .atom a :: ts => some (.atom a, ts)
  | fuel + 1, .opening b :: ts =>
    match readItems fuel b ts with
    | none => none
    | some (items, rest) =>
      if b = .map ∧ items.length % 2 ≠ 0 then none else some (.coll b items, rest)
  | _ + 1, .closing _ :: _ => none
/-- Modelled from the spec: the Value Decoder of §4.2 reading the items of a
collection up to the matching closing delimiter (the decoder is not among the
given sources); discarded forms produce no item. -/
def readItems : Nat → Bracket → List Token → Option (List Form × List Token)
  | 0, _, _ => none
  | _ + 1, _, [] => none
  | _ + 1, b, .closing c :: ts => if c = b.closer then some ([], ts) else none
  | fuel + 1, b, .discard :: ts =>
    match skipForm fuel ts with
    | none => none
    | some rest => readItems fuel b rest
  | fuel + 1, b, t :: ts =>
    match readForm fuel (t :: ts) with
    | none => none
    | some (item, rest) =>
      match readItems fuel b rest with
      | none => none
      | some (items, rest1) => some (item :: items, rest1)
end

/-- Modelled from the spec: the scalar destination shapes of §3 and §4.4 (the
decoder is not among the given sources): fixed-width integers, signed or not,
arbitrary-precision integers, 64-bit floats, arbitrary-precision decimals, and
the non-numeric scalar kinds. `Symbol` is the destination of `TestDiscard`. -/
inductive ScalarKind where
  | Bool
  | FixedInt (isSigned : Bool) (bits : Nat)
  | BigInt
  | Float64
  | BigDecimal
  | String
  | Char
  | Symbol
  | Keyword
  deriving DecidableEq, Repr

/-- Modelled from the spec: a decoded scalar value (§4.2 step 4; the decoder is
not among the given sources). An integer destination holds an integer; a float
or big-decimal destination holds the binary value `mant * 2 ^ exp2`. -/
inductive Decoded where
  | bool (b : Bool)
  | int (n : Int)
  | float (mant : Int) (exp2 : Int)
  | str (s : String)
  | char (c : Char)
  | symbol (name : String)
  | keyword (name : String)
  deriving DecidableEq, Repr

/-- Modelled from the spec: whether an integer fits a fixed-width destination
(§4.4, overflow detection; the decoder is not among the given sources). -/
def fitsFixed (isSigned : Bool) (bits : Nat) (n : Int) : Bool :=
  if isSigned then decide (-(2 ^ (bits - 1) : Int) ≤ n ∧ n < (2 ^ (bits - 1) : Int) ∧ 0 < bits)
  else decide (0 ≤ n ∧ n < (2 ^ bits : Int))

/-- Modelled from the spec: the integer a decimal value `mant * 10 ^ exp10` is, if
it is one (§4.4; the decoder is not among the given sources). -/
def toInteger (mant exp10 : Int) : Option Int :=
  if 0 ≤ exp10 then some (mant * 10 ^ exp10.toNat)
  else if mant % (10 ^ (-exp10).toNat : Int) = 0 then some (mant / (10 ^ (-exp10).toNat : Int))
  else none

/-- Modelled from the spec: the number of halvings that bring `n` below 2, within
the fuel (§4.4; the decoder is not among the given sources). -/
def halvings : Nat → Nat → Nat
  | 0, _ => 0
  | fuel + 1, n => if n < 2 then 0 else halvings fuel (n / 2) + 1

/-- Modelled from the spec: the largest `k` with `2 ^ k ≤ n`, for positive `n`
(§4.4; the decoder is not among the given sources). -/
def log2Floor (n : Nat) : Nat :=
  halvings n n

/-- Modelled from the spec: the largest `k` with `2 ^ k ≤ num / den`, for positive
`num` and `den` (§4.4; the decoder is not among the given sources). -/
def floorLog2 (num den : Nat) : Int :=
  let k : Int := (log2Floor num : Int) - (log2Floor den : Int)
  let reached : Bool :=
    if 0 ≤ k then decide (den * 2 ^ k.toNat ≤ num) else decide (den ≤ num * 2 ^ (-k).toNat)
  if reached then k else k - 1

/-- Modelled from the spec: whether a rounding mode of the Numeric Context (§3)
rounds the magnitude `q + r / den` up to `q + 1` (the decoder is not among the
given sources). -/
def roundsUp (mode : RoundingMode) (neg : Bool) (q r den : Nat) : Bool :=
  match mode with
  | .ToNearestEven => decide (den < 2 * r) || (decide (2 * r = den) && decide (q % 2 = 1))
  | .ToNearestAway => decide (den ≤ 2 * r)
  | .ToZero => false
  | .AwayFromZero => decide (0 < r)
  | .ToNegativeInf => neg && decide (0 < r)
  | .ToPositiveInf => !neg && decide (0 < r)

/-- Modelled from the spec: the decimal value `mant * 10 ^ exp10` rounded to a
binary value of `prec` significant bits under a rounding mode (§4.4; the decoder
is not among the given sources); `minExp`, when given, is the smallest exponent
of the last bit. The result is `(m, e)` for the value `m * 2 ^ e`. -/
def roundBinary (mode : RoundingMode) (prec : Nat) (minExp : Option Int)
    (mant exp10 : Int) : Int × Int :=
  if mant = 0 then (0, 0)
  else
    let neg := decide (mant < 0)
    let num0 := if 0 ≤ exp10 then mant.natAbs * 10 ^ exp10.toNat else mant.natAbs
    let den0 := if 0 ≤ exp10 then 1 else 10 ^ (-exp10).toNat
    let e0 := floorLog2 num0 den0 - ((prec : Int) - 1)
    let e := match minExp with
      | some lo => max e0 lo
      | none => e0
    let num := if 0 ≤ e then num0 else num0 * 2 ^ (-e).toNat
    let den := if 0 ≤ e then den0 * 2 ^ e.toNat else den0
    let q := num / den
    let r := num % den
    let q1 := if roundsUp mode neg q r den then q + 1 else q
    let q2 := if q1 = 2 ^ prec then 2 ^ (prec - 1) else q1
    let e2 := if q1 = 2 ^ prec then e + 1 else e
    if q2 = 0 then (0, 0) else (signed neg q2, e2)

/-- Modelled from the spec: a decimal value decoded into a 64-bit float
destination (§4.4; the decoder is not among the given sources): rounded to
nearest-even on 53 bits, the last bit no smaller than `2 ^ -1074`; a value of
`2 ^ 1024` or more does not fit and is a range error. -/
def toFloat64 (mant exp10 : Int) : Option Decoded :=
  let v := roundBinary .ToNearestEven 53 (some (-1074)) mant exp10
  if 971 < v.2 then none else some (.float v.1 v.2)

/-- Modelled from the spec: a decimal value decoded into an arbitrary-precision
decimal destination under the active Numeric Context (§4.4; the decoder is not
among the given sources). A precision of 0 is read as 64 bits, as `math/big`
does when it parses. -/
def toBigDecimal (ctx : MathContext) (mant exp10 : Int) : Decoded :=
  let prec := if ctx.Precision = 0 then 64 else ctx.Precision
  let v := roundBinary ctx.Mode prec none mant exp10
  .float v.1 v.2

/-- Modelled from the spec: an exact integer decoded into a fixed-width
destination with overflow detection (§4.4; the decoder is not among the given
sources). -/
def toFixed (isSigned : Bool) (bits : Nat) (n : Int) : Option Decoded :=
  if fitsFixed isSigned bits n then some (.int n) else none

/-- Modelled from the spec: structural decoding of a literal into a scalar
destination (§4.2 step 4 with the conversions of §4.4; the decoder is not among
the given sources). The literal must be of the category of the destination. A
plain integer goes into a fixed-width integer when it fits (a range error
otherwise), into a big integer exactly, into a float or big decimal by
rounding. A plain float goes into a float or big decimal. A literal marked `N`
or `M` goes into every numeric destination; where the spec leaves strict or
lossy to the implementer the strict policy is taken: into an integer
destination it must be an integer that fits. -/
def assignScalar (ctx : MathContext) (dest : ScalarKind) (a : Atom) : Option Decoded :=
  match dest, a with
  | .Bool, .bool b => some (.bool b)
  | .String, .str s => some (.str s)
  | .Char, .char c => some (.char c)
  | .Symbol, .symbol s => some (.symbol s)
  | .Keyword, .keyword s => some (.keyword s)
  | .FixedInt sg bits, .int n => toFixed sg bits n
  | .FixedInt sg bits, .bigInt n => toFixed sg bits n
  | .FixedInt sg bits, .bigDecimal m e => (toInteger m e).bind (toFixed sg bits)
  | .BigInt, .int n => some (.int n)
  | .BigInt, .bigInt n => some (.int n)
  | .BigInt, .bigDecimal m e => (toInteger m e).map Decoded.int
  | .Float64, .int n => toFloat64 n 0
  | .Float64, .bigInt n => toFloat64 n 0
  | .Float64, .float m e => toFloat64 m e
  | .Float64, .bigDecimal m e => toFloat64 m e
  | .BigDecimal, .int n => some (toBigDecimal ctx n 0)
  | .BigDecimal, .bigInt n => some (toBigDecimal ctx n 0)
  | .BigDecimal, .float m e => some (toBigDecimal ctx m e)
  | .BigDecimal, .bigDecimal m e => some (toBigDecimal ctx m e)
  | _, _ => none

/-- Modelled from the spec: an entry of the Tag Registry as the decoder uses it
(§3, §4.2 step 3; the decoder is not among the given sources): the scalar kind
of the value it produces, and the resolution of the inner form, which is either
decoding it into the converter's input shape and invoking the converter, or
decoding it into the prototype's shape. -/
structure TagEntry where
  produces : ScalarKind
  resolve : Form → Option Decoded

/-- Modelled from the spec: the Tag Registry as the decoder reads it (§3; the
decoder is not among the given sources). -/
abbrev Registry := String → Option TagEntry

/-- Modelled from the spec: decoding a form into a scalar destination (§4.2 steps
3 and 4; the decoder is not among the given sources). A tagged form is resolved
through the registry and its value must be assignable to the destination; an
unregistered tag fails, the policy chosen where the spec leaves the choice. A
collection is a type mismatch. -/
def decodeScalar (ctx : MathContext) (tags : Registry) (dest : ScalarKind) :
    Form → Option Decoded
  | .atom a => assignScalar ctx dest a
  | .coll _ _ => none
  | .tagged tag inner =>
    match tags tag with
    | none => none
    | some entry => if entry.produces = dest then entry.resolve inner else none

/-- Modelled from the spec: one decode call on a token stream (§4.2; the decoder
is not among the given sources): read the next form, with as much fuel as there
are tokens. -/
def decodeTokens (ts : List Token) : Option Form :=
  (readForm ts.length ts).map Prod.fst

/-- Modelled from the spec: the one-shot entry point `UnmarshalString` of §6 for a
scalar destination (the decoder is not among the given sources): lex the text,
read the first form, decode it into the destination under the process-wide
Numeric Context. -/
def UnmarshalString (tags : Registry) (input : String) (dest : ScalarKind) :
    Option Decoded :=
  match lex input with
  | none => none
  | some ts =>
    match decodeTokens ts with
    | none => none
    | some f => decodeScalar GlobalMathContext tags dest f

/-- Modelled from the spec: a registry without entries (§3; the decoder is not
among the given sources). -/
def noTags : Registry := fun _ => none

/-- Modelled from the spec: a registry with one entry (§3; the decoder is not
among the given sources): the tag `sym` produces a symbol, resolving its inner
form by decoding it into a symbol. -/
def symTags : Registry := fun tag =>
  if tag = "sym" then
    some ⟨ScalarKind.Symbol, decodeScalar GlobalMathContext noTags ScalarKind.Symbol⟩
  else none

mutual
/-- Modelled from the spec: the written shape of one complete form (§3, §4.3; the
grammar is not among the given sources): a literal, a tag prefix on a complete
form, a collection, or a discard marker with the form it drops followed by the
form that is read. -/
inductive Syn where
  | atom (a : Atom)
  | tagged (tag : String) (inner : Syn)
  | coll (b : Bracket) (items : SynItems)
  | discard (dropped : Syn) (next : Syn)
/-- Modelled from the spec: the written content of a collection (§3, §4.3; the
grammar is not among the given sources): complete forms and discard-marked
forms, up to the closing delimiter. -/
inductive SynItems where
  | done
  | item (x : Syn) (more : SynItems)
  | drop (dropped : Syn) (more : SynItems)
end

mutual
/-- Modelled from the spec: the tokens a complete form is written with (§4.1; the
grammar is not among the given sources). -/
def toks : Syn → List Token
  | .atom a => [.atom a]
  | .tagged tag inner => .tag tag :: toks inner
  | .coll b items => .opening b :: toksItems b items
  | .discard dropped next => .discard :: (toks dropped ++ toks next)
/-- Modelled from the spec: the tokens the content of a collection is written
with, closing delimiter included (§4.1; the grammar is not among the given
sources). -/
def toksItems (b : Bracket) : SynItems → List Token
  | .done => [.closing b.closer]
  | .item x more => toks x ++ toksItems b more
  | .drop dropped more => .discard :: (toks dropped ++ toksItems b more)
end

mutual
/-- Modelled from the spec: the form a written form stands for (§4.2, §4.3; the
grammar is not among the given sources): discard-marked forms leave no trace. -/
def value : Syn → Form
  | .atom a => .atom a
  | .tagged tag inner => .tagged tag (value inner)
  | .coll b items => .coll b (values items)
  | .discard _ next => value next
/-- Modelled from the spec: the items a written collection content stands for
(§4.2, §4.3; the grammar is not among the given sources). -/
def values : SynItems → List Form
  | .done => []
  | .item x more => value x :: values more
  | .drop _ more => values more
end

mutual
/-- Modelled from the spec: well-formedness of a written form (§3; the grammar is
not among the given sources): every map literal that is read has an even number
of child forms. Forms dropped by a discard marker are not examined. -/
def wellFormed : Syn → Bool
  | .atom _ => true
  | .tagged _ inner => wellFormed inner
  | .coll b items =>
    wellFormedItems items && (decide (b ≠ .map) || decide ((values items).length % 2 = 0))
  | .discard _ next => wellFormed next
/-- Modelled from the spec: well-formedness of the content of a collection (§3;
the grammar is not among the given sources). -/
def wellFormedItems : SynItems → Bool
  | .done => true
  | .item x more => wellFormed x && wellFormedItems more
  | .drop _ more => wellFormedItems more
end

/-- Modelled from the spec: the tokens of a run of discard-marked forms (§4.3; the
grammar is not among the given sources): each is a discard marker followed by
one complete form. -/
def discardedRun : List Syn → List Token
  | [] => []
  | d :: ds => .discard :: (toks d ++ discardedRun ds)

/-- Modelled from the spec: the written form made of a run of discard-marked
forms followed by the form `f` (§4.3; the grammar is not among the given
sources). -/
def discardAll : List Syn → Syn → Syn
  | [], f => f
  | d :: ds, f => .discard d (discardAll ds f)

/-! ## Lemmas on `addVal` and on the two validations -/

theorem get_eq_lookup (tm : TagMap) (name : String) :
    tm.get name = tm.entriesOrEmpty.lookup name := by
  unfold TagMap.get TagMap.entriesOrEmpty
  cases tm.m <;> rfl

theorem len_eq_length (tm : TagMap) : tm.len = tm.entriesOrEmpty.entries.length := by
  unfold TagMap.len TagMap.entriesOrEmpty
  cases tm.m <;> rfl

theorem addVal_eq (tm : TagMap) (name : String) (val : Value) :
    tm.addVal name val =
      (⟨some (tm.entriesOrEmpty.insert name val)⟩,
        if (tm.get name).isSome then some Err.ErrTagOverwritten else none) := by
  rw [get_eq_lookup]
  unfold TagMap.addVal TagMap.entriesOrEmpty
  cases tm.m <;> simp only [] <;> split <;> rfl

theorem addVal_get_self (tm : TagMap) (name : String) (val : Value) :
    (tm.addVal name val).1.get name = some val := by
  rw [addVal_eq]
  exact AList.lookup_insert _

theorem addVal_get_other (tm : TagMap) (name other : String) (val : Value)
    (h : other ≠ name) : (tm.addVal name val).1.get other = tm.get other := by
  rw [addVal_eq, get_eq_lookup tm other]
  show AList.lookup other (AList.insert name val tm.entriesOrEmpty) = _
  exact AList.lookup_insert_ne h

theorem addVal_err (tm : TagMap) (name : String) (val : Value) :
    (tm.addVal name val).2 =
      if (tm.get name).isSome then some Err.ErrTagOverwritten else none := by
  rw [addVal_eq]

theorem insert_length (m : AList (fun _ : String => Value)) (name : String) (val : Value) :
    (m.insert name val).entries.length =
      if (m.lookup name).isSome then m.entries.length else m.entries.length + 1 := by
  by_cases hm : name ∈ m
  · have h1 : (m.lookup name).isSome := AList.lookup_isSome.mpr hm
    have hk : name ∈ m.keys := AList.mem_keys.mp hm
    have h2 : (m.insert name val).keys.length = m.keys.length := by
      rw [AList.keys_insert, List.length_cons, List.length_erase_of_mem hk]
      have : 0 < m.keys.length := List.length_pos_of_mem hk
      omega
    simp only [AList.keys, List.keys, List.length_map] at h2
    rw [if_pos h1]
    exact h2
  · have h1 : m.lookup name = none := AList.lookup_eq_none.mpr hm
    rw [h1, AList.insert_entries_of_neg hm]
    simp

theorem addVal_len (tm : TagMap) (name : String) (val : Value) :
    (tm.addVal name val).1.len =
      if (tm.get name).isSome then tm.len else tm.len + 1 := by
  rw [addVal_eq, get_eq_lookup tm, len_eq_length tm]
  exact insert_length tm.entriesOrEmpty name val

theorem AddTagFn_some (tm : TagMap) (tagname : String) (i : Iface) :
    tm.AddTagFn tagname (some i) =
      if i.typ.Kind ≠ Kind.Func then .ret (tm, some Err.ErrNotFunc)
      else if i.typ.ins.length ≠ 1 then .ret (tm, some Err.ErrMismatchArities)
      else if i.typ.outs.length ≠ 2 then .ret (tm, some Err.ErrMismatchArities)
      else
        match i.typ.outs.get? 1 with
        | none => .ret (tm, some Err.ErrMismatchArities)
        | some o =>
          if ∀ m ∈ errorType.methods, m ∈ o.methods then
            .ret (tm.addVal tagname (ValueOf (some i)))
          else .ret (tm, some Err.ErrMismatchArities) := by
  obtain ⟨t, w⟩ := i
  obtain ⟨k, hk, n, ms, ins, outs⟩ := t
  simp only [TagMap.AddTagFn, ValueOf, Value.Type, RType.Kind, RType.NumIn, RType.NumOut,
    RType.Out, RType.ins, RType.outs, RType.Implements, errorType]
  by_cases h1 : k = Kind.Func
  · subst h1
    by_cases h2 : ins.length = 1
    · by_cases h3 : outs.length = 2
      · match outs, h3 with
        | [a, b], _ =>
          simp only [h2, List.length_cons, List.length_nil, List.get?_cons_succ,
            List.get?_cons_zero, ne_eq, not_true_eq_false, ite_false, ite_true,
            reduceCtorEq, not_false_eq_true, if_true, if_false, decide_True, decide_False]
          simp only [List.all_eq_true, decide_eq_true_eq, Bool.not_eq_true', Bool.not_eq_true,
            Bool.not_eq_false, RType.methods, List.mem_singleton, forall_eq,
            List.all_cons, List.all_nil, Bool.and_true, decide_eq_false_iff_not]
          split_ifs <;> simp_all
      · simp [h2, h3]
    · simp [h2]
  · simp [h1]

theorem AddTagStruct_some (tm : TagMap) (tagname : String) (i : Iface) :
    tm.AddTagStruct tagname (some i) =
      if i.typ.Kind ∈ nonConcreteKinds then .ret (tm, some Err.ErrNotConcrete)
      else .ret (tm.addVal tagname (ValueOf (some i))) := by
  obtain ⟨t, w⟩ := i
  obtain ⟨k, hk, n, ms, ins, outs⟩ := t
  simp only [TagMap.AddTagStruct, ValueOf, Value.Type, RType.Kind, nonConcreteKinds]
  cases k <;> first
    | exact absurd rfl hk
    | rfl

theorem register_of_passes (r : Route) (tm : TagMap) (tagname : String) (v : Interface)
    (h : passesValidation r v) :
    register r tm tagname v = .ret (tm.addVal tagname (ValueOf v)) := by
  cases r with
  | viaFn =>
    obtain ⟨i, rfl, hk, h1, h2, o, ho, hm⟩ := h
    simp only [register, AddTagFn_some, hk, h1, h2, ho, ne_eq, not_true_eq_false, if_false]
    rw [if_pos hm]
  | viaStruct =>
    obtain ⟨i, rfl, hk⟩ := h
    simp only [register, AddTagStruct_some, if_neg hk]

theorem instFn_passes : passesValidation Route.viaFn instFn :=
  ⟨_, rfl, rfl, rfl, rfl, errorType, rfl, fun _ hm => hm⟩

theorem stringValue_passes (w : Nat) :
    passesValidation Route.viaStruct (some ⟨stringType, w⟩) :=
  ⟨_, rfl, show stringType.Kind ∉ nonConcreteKinds by decide⟩

theorem AddTagFn_string_rejected :
    globalTags.AddTagFn "t" (some ⟨stringType, 0⟩) = .ret (globalTags, some Err.ErrNotFunc) :=
  rfl

/-! ## The registry claims -/

/-- C1. Second registration wins: for two values that pass validation, registered
one after the other under the same name by any mix of `AddTagFn` and
`AddTagStruct`, both calls return, the second one returns the soft
`ErrTagOverwritten` and the registry then maps the name to the second value. -/
theorem second_registration_wins (r1 r2 : Route) (tm : TagMap) (name : String)
    (v1 v2 : Interface) (h1 : passesValidation r1 v1) (h2 : passesValidation r2 v2) :
    ∃ tm1 e1 tm2, register r1 tm name v1 = .ret (tm1, e1) ∧
      register r2 tm1 name v2 = .ret (tm2, some Err.ErrTagOverwritten) ∧
      tm2.get name = some (ValueOf v2) := by
  refine ⟨(tm.addVal name (ValueOf v1)).1, (tm.addVal name (ValueOf v1)).2,
    ((tm.addVal name (ValueOf v1)).1.addVal name (ValueOf v2)).1, ?_, ?_, ?_⟩
  · exact register_of_passes r1 tm name v1 h1
  · rw [register_of_passes r2 _ name v2 h2]
    congr 1
    refine Prod.ext rfl ?_
    show ((tm.addVal name (ValueOf v1)).1.addVal name (ValueOf v2)).2 = _
    rw [addVal_err, addVal_get_self]
    rfl
  · exact addVal_get_self _ _ _

/-- C2. A registration of a value that passes validation returns
`ErrTagOverwritten` exactly when the name was present before the call and nil
exactly when it was absent, and the name is present afterwards. -/
theorem registration_error_iff_present (r : Route) (tm : TagMap) (name : String)
    (v : Interface) (h : passesValidation r v) :
    ∃ tm1 e, register r tm name v = .ret (tm1, e) ∧
      (e = some Err.ErrTagOverwritten ↔ (tm.get name).isSome = true) ∧
      (e = none ↔ tm.get name = none) ∧
      (tm1.get name).isSome = true := by
  refine ⟨(tm.addVal name (ValueOf v)).1, (tm.addVal name (ValueOf v)).2,
    register_of_passes r tm name v h, ?_, ?_, ?_⟩
  · rw [addVal_err]
    cases tm.get name <;> simp
  · rw [addVal_err]
    cases tm.get name <;> simp
  · rw [addVal_get_self]
    rfl

/-- Witness of C1: a converter function, then a string prototype, on the empty
registry under the name "t". -/
theorem second_registration_wins_witness :
    passesValidation Route.viaFn instFn ∧
    passesValidation Route.viaStruct (some ⟨stringType, 7⟩) ∧
    ∃ tm1 e1 tm2, register Route.viaFn globalTags "t" instFn = .ret (tm1, e1) ∧
      register Route.viaStruct tm1 "t" (some ⟨stringType, 7⟩) =
        .ret (tm2, some Err.ErrTagOverwritten) ∧
      tm2.get "t" = some (ValueOf (some ⟨stringType, 7⟩)) :=
  ⟨instFn_passes, stringValue_passes 7,
    second_registration_wins Route.viaFn Route.viaStruct globalTags "t" instFn
      (some ⟨stringType, 7⟩) instFn_passes (stringValue_passes 7)⟩

/-- Witness of C2: a string prototype registered on the empty registry. -/
theorem registration_error_iff_present_witness :
    passesValidation Route.viaStruct (some ⟨stringType, 7⟩) ∧
    ∃ tm1 e, register Route.viaStruct globalTags "t" (some ⟨stringType, 7⟩) = .ret (tm1, e) ∧
      (e = some Err.ErrTagOverwritten ↔ (globalTags.get "t").isSome = true) ∧
      (e = none ↔ globalTags.get "t" = none) ∧
      (tm1.get "t").isSome = true :=
  ⟨stringValue_passes 7,
    registration_error_iff_present Route.viaStruct globalTags "t" (some ⟨stringType, 7⟩)
      (stringValue_passes 7)⟩

/-- C3, evaluated where the code departs from it. At the nil interface value,
which is not of function kind, `AddTagFn` does not return `ErrNotFunc`: the call
`Type()` on the zero Value panics. And a function whose second result is the
pointer type `*myErr`, which implements `error` but is not `error`, is not
rejected with `ErrMismatchArities`: it is registered and nil is returned. -/
theorem AddTagFn_departs_from_signature_check :
    (ValueOf none).Kind ≠ Kind.Func ∧
    globalTags.AddTagFn "t" none =
      .panic "reflect: call of reflect.Value.Type on zero Value" ∧
    (¬ ∃ tm1, globalTags.AddTagFn "t" none = .ret (tm1, some Err.ErrNotFunc)) ∧
    myErrPtrType.Kind = Kind.Pointer ∧
    errorType.Kind = Kind.Interface ∧
    (ValueOf myErrFn).Kind = Kind.Func ∧
    (∃ tm1, globalTags.AddTagFn "t" myErrFn = .ret (tm1, none) ∧
      tm1.get "t" = some (ValueOf myErrFn)) ∧
    (¬ ∃ tm1, globalTags.AddTagFn "t" myErrFn =
      .ret (tm1, some Err.ErrMismatchArities)) := by
  have hrun : globalTags.AddTagFn "t" myErrFn =
      .ret (globalTags.addVal "t" (ValueOf myErrFn)) :=
    register_of_passes Route.viaFn globalTags "t" myErrFn
      ⟨_, rfl, rfl, rfl, rfl, myErrPtrType, rfl, by
        intro m hm
        simp only [errorType, RType.methods, List.mem_singleton] at hm
        subst hm
        simp [myErrPtrType, RType.methods]⟩
  have herr : (globalTags.addVal "t" (ValueOf myErrFn)).2 = none := by
    rw [addVal_err]
    rfl
  refine ⟨by decide, rfl, ?_, rfl, rfl, rfl, ?_, ?_⟩
  · rintro ⟨tm1, h⟩
    simp [TagMap.AddTagFn, ValueOf, Value.Type] at h
  · refine ⟨(globalTags.addVal "t" (ValueOf myErrFn)).1, ?_, addVal_get_self _ _ _⟩
    rw [hrun]
    exact congrArg Outcome.ret (Prod.ext rfl herr)
  · rintro ⟨tm1, h⟩
    rw [hrun] at h
    have h2 := congrArg Prod.snd (Outcome.ret.inj h)
    rw [herr] at h2
    simp at h2

/-- What `AddTagFn` does on a non-nil `fn`: it returns `ErrNotFunc` exactly when
`fn` is not of function kind, returns `ErrMismatchArities` exactly when `fn` is a
function that fails the test of line 40 (one parameter, two results, the second
implementing `error`), and otherwise registers `fn` under the tag name,
returning nil or `ErrTagOverwritten`. -/
theorem AddTagFn_validates_non_nil (tm : TagMap) (tagname : String) (i : Iface) :
    ((∃ tm1, tm.AddTagFn tagname (some i) = .ret (tm1, some Err.ErrNotFunc)) ↔
        i.typ.Kind ≠ Kind.Func) ∧
    ((∃ tm1, tm.AddTagFn tagname (some i) = .ret (tm1, some Err.ErrMismatchArities)) ↔
        (i.typ.Kind = Kind.Func ∧ ¬ hasConverterSignature i.typ)) ∧
    ((i.typ.Kind = Kind.Func ∧ hasConverterSignature i.typ) →
        ∃ tm1 e, tm.AddTagFn tagname (some i) = .ret (tm1, e) ∧
          (e = none ∨ e = some Err.ErrTagOverwritten) ∧
          tm1.get tagname = some (ValueOf (some i))) := by
  have hreg : ∀ e, (tm.addVal tagname (ValueOf (some i))).2 = e →
      e = none ∨ e = some Err.ErrTagOverwritten := by
    intro e he
    rw [addVal_err] at he
    subst he
    split <;> simp
  by_cases hk : i.typ.Kind = Kind.Func
  · by_cases hs : hasConverterSignature i.typ
    · have hpass : passesValidation Route.viaFn (some i) := ⟨i, rfl, hk, hs⟩
      have hrun : tm.AddTagFn tagname (some i) =
          .ret (tm.addVal tagname (ValueOf (some i))) :=
        register_of_passes Route.viaFn tm tagname (some i) hpass
      refine ⟨?_, ?_, ?_⟩
      · constructor
        · rintro ⟨tm1, h⟩
          rw [hrun] at h
          have := hreg _ (congrArg Prod.snd (Outcome.ret.inj h))
          simp at this
        · intro h; exact absurd hk h
      · constructor
        · rintro ⟨tm1, h⟩
          rw [hrun] at h
          have := hreg _ (congrArg Prod.snd (Outcome.ret.inj h))
          simp at this
        · rintro ⟨_, h⟩; exact absurd hs h
      · intro _
        exact ⟨_, _, hrun, hreg _ rfl, addVal_get_self _ _ _⟩
    · have hrun : tm.AddTagFn tagname (some i) =
          .ret (tm, some Err.ErrMismatchArities) := by
        rw [AddTagFn_some]
        simp only [hk, ne_eq, not_true_eq_false, if_false]
        by_cases h1 : i.typ.ins.length = 1
        · by_cases h2 : i.typ.outs.length = 2
          · simp only [h1, h2, not_true_eq_false, if_false]
            cases ho : i.typ.outs.get? 1 with
            | none => rfl
            | some o =>
              simp only []
              by_cases hm : ∀ m ∈ errorType.methods, m ∈ o.methods
              · exact absurd ⟨h1, h2, o, ho, hm⟩ hs
              · rw [if_neg hm]
          · simp [h1, h2]
        · simp [h1]
      refine ⟨?_, ?_, ?_⟩
      · constructor
        · rintro ⟨tm1, h⟩
          rw [hrun] at h
          simp at h
        · intro h; exact absurd hk h
      · constructor
        · intro _; exact ⟨hk, hs⟩
        · intro _; exact ⟨tm, hrun⟩
      · rintro ⟨_, h⟩; exact absurd h hs
  · have hrun : tm.AddTagFn tagname (some i) = .ret (tm, some Err.ErrNotFunc) := by
      rw [AddTagFn_some]
      simp [hk]
    refine ⟨?_, ?_, ?_⟩
    · constructor
      · intro _; exact hk
      · intro _; exact ⟨tm, hrun⟩
    · constructor
      · rintro ⟨tm1, h⟩
        rw [hrun] at h
        simp at h
      · rintro ⟨h, _⟩; exact absurd h hk
    · rintro ⟨h, _⟩; exact absurd h hk

/-- A `func(string) (string, error)` value is registered on the empty registry. -/
theorem AddTagFn_validates_non_nil_witness :
    ∃ tm1 e,
      globalTags.AddTagFn "t"
          (some ⟨.mk Kind.Func (by decide) "func(string) (string, error)" []
            [stringType] [stringType, errorType], 3⟩) = .ret (tm1, e) ∧
        (e = none ∨ e = some Err.ErrTagOverwritten) ∧
        tm1.get "t" =
          some (ValueOf (some ⟨.mk Kind.Func (by decide) "func(string) (string, error)" []
            [stringType] [stringType, errorType], 3⟩)) :=
  (AddTagFn_validates_non_nil globalTags "t"
    ⟨.mk Kind.Func (by decide) "func(string) (string, error)" []
      [stringType] [stringType, errorType], 3⟩).2.2
    ⟨rfl, rfl, rfl, errorType, rfl, fun _ hm => hm⟩

/-- C4, as stated, fails at the nil interface value: its kind, `Invalid`, is none
of channel, function, interface and unsafe pointer, yet `AddTagStruct` neither
registers it nor returns at all (the call `Type()` on the zero Value panics). -/
theorem AddTagStruct_nil_not_registered :
    (ValueOf none).Kind ∉ nonConcreteKinds ∧
      ¬ ∃ tm1 e, globalTags.AddTagStruct "t" none = .ret (tm1, e) := by
  refine ⟨by decide, ?_⟩
  rintro ⟨tm1, e, h⟩
  simp [TagMap.AddTagStruct, ValueOf, Value.Type] at h

/-- C4, amended to non-nil `val`: when the kind of `val` is channel, function,
interface or unsafe pointer `AddTagStruct` returns `ErrNotConcrete`, and for
every other kind it registers `val` under the tag name and returns nil or
`ErrTagOverwritten`. -/
theorem AddTagStruct_validates_non_nil (tm : TagMap) (tagname : String) (i : Iface) :
    (i.typ.Kind ∈ nonConcreteKinds →
        tm.AddTagStruct tagname (some i) = .ret (tm, some Err.ErrNotConcrete)) ∧
    (i.typ.Kind ∉ nonConcreteKinds →
        ∃ tm1 e, tm.AddTagStruct tagname (some i) = .ret (tm1, e) ∧
          (e = none ∨ e = some Err.ErrTagOverwritten) ∧
          tm1.get tagname = some (ValueOf (some i))) := by
  constructor
  · intro h
    rw [AddTagStruct_some, if_pos h]
  · intro h
    refine ⟨(tm.addVal tagname (ValueOf (some i))).1, (tm.addVal tagname (ValueOf (some i))).2,
      ?_, ?_, addVal_get_self _ _ _⟩
    · rw [AddTagStruct_some, if_neg h]
    · rw [addVal_err]
      split <;> simp

/-- Witness of C4 (amended): a channel value is rejected, a string value is
registered, both on the empty registry. -/
theorem AddTagStruct_validates_non_nil_witness :
    globalTags.AddTagStruct "t" (some ⟨.mk Kind.Chan (by decide) "chan int" [] [] [], 5⟩) =
        .ret (globalTags, some Err.ErrNotConcrete) ∧
      ∃ tm1 e, globalTags.AddTagStruct "t" (some ⟨stringType, 7⟩) = .ret (tm1, e) ∧
        (e = none ∨ e = some Err.ErrTagOverwritten) ∧
        tm1.get "t" = some (ValueOf (some ⟨stringType, 7⟩)) :=
  ⟨(AddTagStruct_validates_non_nil globalTags "t"
      ⟨.mk Kind.Chan (by decide) "chan int" [] [] [], 5⟩).1 (by decide),
    (AddTagStruct_validates_non_nil globalTags "t" ⟨stringType, 7⟩).2 (by decide)⟩

/-- C5. Starting from the zero-value global TagMap, `init` registers "inst" and
"base64": both `AddTagFn` calls return nil, `init` returns without panicking, and
the registry then maps "inst" to the `func(string) (time.Time, error)` value and
"base64" to the `func(string) ([]byte, error)` value, and holds exactly these two
names. -/
theorem init_registers_builtin_tags :
    ∃ g1 g2, AddTagFn globalTags "inst" instFn = .ret (g1, none) ∧
      AddTagFn g1 "base64" base64Fn = .ret (g2, none) ∧
      init globalTags = .ret g2 ∧
      g1.get "inst" = some (ValueOf instFn) ∧
      g2.get "inst" = some (ValueOf instFn) ∧
      g2.get "base64" = some (ValueOf base64Fn) ∧
      (ValueOf instFn).typ.map RType.Kind = some Kind.Func ∧
      (ValueOf base64Fn).typ.map RType.Kind = some Kind.Func ∧
      (∀ n, (g2.get n).isSome = true ↔ (n = "inst" ∨ n = "base64")) ∧
      g2.len = 2 := by
  have hi : passesValidation Route.viaFn instFn :=
    ⟨_, rfl, rfl, rfl, rfl, errorType, rfl, fun _ hm => hm⟩
  have hb : passesValidation Route.viaFn base64Fn :=
    ⟨_, rfl, rfl, rfl, rfl, errorType, rfl, fun _ hm => hm⟩
  have e1 : AddTagFn globalTags "inst" instFn =
      .ret (globalTags.addVal "inst" (ValueOf instFn)) :=
    register_of_passes Route.viaFn globalTags "inst" instFn hi
  have a1 : globalTags.addVal "inst" (ValueOf instFn) =
      ((globalTags.addVal "inst" (ValueOf instFn)).1, none) := by
    refine Prod.ext rfl ?_
    rw [addVal_err]
    rfl
  have e2 : AddTagFn (globalTags.addVal "inst" (ValueOf instFn)).1 "base64" base64Fn =
      .ret ((globalTags.addVal "inst" (ValueOf instFn)).1.addVal "base64" (ValueOf base64Fn)) :=
    register_of_passes Route.viaFn _ "base64" base64Fn hb
  have g1none : (globalTags.addVal "inst" (ValueOf instFn)).1.get "base64" = none := by
    rw [addVal_get_other _ _ _ _ (by decide)]
    rfl
  have a2 : (globalTags.addVal "inst" (ValueOf instFn)).1.addVal "base64" (ValueOf base64Fn) =
      (((globalTags.addVal "inst" (ValueOf instFn)).1.addVal "base64" (ValueOf base64Fn)).1,
        none) := by
    refine Prod.ext rfl ?_
    rw [addVal_err, g1none]
    rfl
  refine ⟨(globalTags.addVal "inst" (ValueOf instFn)).1,
    ((globalTags.addVal "inst" (ValueOf instFn)).1.addVal "base64" (ValueOf base64Fn)).1,
    e1.trans (congrArg Outcome.ret a1), e2.trans (congrArg Outcome.ret a2), ?_,
    addVal_get_self _ _ _, ?_, addVal_get_self _ _ _, rfl, rfl, ?_, ?_⟩
  · unfold init
    rw [e1, a1]
    simp only []
    rw [e2, a2]
  · rw [addVal_get_other _ _ _ _ (by decide)]
    exact addVal_get_self _ _ _
  · intro n
    by_cases hb64 : n = "base64"
    · subst hb64
      rw [addVal_get_self]
      simp
    · rw [addVal_get_other _ _ _ _ hb64]
      by_cases hin : n = "inst"
      · subst hin
        rw [addVal_get_self]
        simp
      · rw [addVal_get_other _ _ _ _ hin]
        simp [hb64, hin, TagMap.get, globalTags]
  · rw [addVal_len, g1none, addVal_len]
    rfl

/-- C8. A rejected registration is atomic: when `AddTagFn` returns `ErrNotFunc` or
`ErrMismatchArities`, or `AddTagStruct` returns `ErrNotConcrete`, the TagMap
returned is the TagMap the call started from. -/
theorem rejected_registration_unchanged (tm tm1 : TagMap) (tagname : String)
    (v : Interface) (e : Err)
    (h : (tm.AddTagFn tagname v = .ret (tm1, some e) ∧
            (e = Err.ErrNotFunc ∨ e = Err.ErrMismatchArities)) ∨
         (tm.AddTagStruct tagname v = .ret (tm1, some e) ∧ e = Err.ErrNotConcrete)) :
    tm1 = tm := by
  have hreg : ∀ val : Value, (tm.addVal tagname val).2 ≠ some Err.ErrNotFunc ∧
      (tm.addVal tagname val).2 ≠ some Err.ErrMismatchArities ∧
      (tm.addVal tagname val).2 ≠ some Err.ErrNotConcrete := by
    intro val
    rw [addVal_err]
    split <;> simp
  cases v with
  | none =>
    rcases h with ⟨h, _⟩ | ⟨h, _⟩
    · simp [TagMap.AddTagFn, ValueOf, Value.Type] at h
    · simp [TagMap.AddTagStruct, ValueOf, Value.Type] at h
  | some i =>
    rcases h with ⟨h, he⟩ | ⟨h, he⟩
    · rw [AddTagFn_some] at h
      have key : ∀ val : Value, Outcome.ret (tm.addVal tagname val) =
          Outcome.ret (tm1, some e) → tm1 = tm := by
        intro val hv
        have h2 := congrArg Prod.snd (Outcome.ret.inj hv)
        rcases he with rfl | rfl
        · exact absurd h2 (hreg val).1
        · exact absurd h2 (hreg val).2.1
      have key2 : ∀ e0 : Err, Outcome.ret (tm, some e0) = Outcome.ret (tm1, some e) →
          tm1 = tm := by
        intro e0 hv
        exact (congrArg Prod.fst (Outcome.ret.inj hv)).symm
      split_ifs at h
      · exact key2 _ h
      · exact key2 _ h
      · exact key2 _ h
      · split at h
        · exact key2 _ h
        · split_ifs at h
          · exact key _ h
          · exact key2 _ h
    · rw [AddTagStruct_some] at h
      split_ifs at h
      · exact (congrArg Prod.fst (Outcome.ret.inj h)).symm
      · have h2 := congrArg Prod.snd (Outcome.ret.inj h)
        subst he
        exact absurd h2 (hreg _).2.2

/-- Witness of C8: `AddTagFn` rejects a string with `ErrNotFunc` and returns the
registry it was given. -/
theorem rejected_registration_unchanged_witness :
    ((globalTags.AddTagFn "t" (some ⟨stringType, 0⟩) =
          .ret (globalTags, some Err.ErrNotFunc) ∧
        (Err.ErrNotFunc = Err.ErrNotFunc ∨ Err.ErrNotFunc = Err.ErrMismatchArities)) ∨
      (globalTags.AddTagStruct "t" (some ⟨stringType, 0⟩) =
          .ret (globalTags, some Err.ErrNotFunc) ∧ Err.ErrNotFunc = Err.ErrNotConcrete)) ∧
    globalTags = globalTags :=
  ⟨Or.inl ⟨AddTagFn_string_rejected, Or.inl rfl⟩,
    rejected_registration_unchanged globalTags globalTags "t" (some ⟨stringType, 0⟩)
      Err.ErrNotFunc (Or.inl ⟨AddTagFn_string_rejected, Or.inl rfl⟩)⟩

/-- C9. Registration touches only the named tag: after a registration of an
accepted value under `n`, every other name has the lookup result it had before
(present exactly when it was, with the same value), and the number of entries
grows by one when `n` was absent and is unchanged when `n` was present. -/
theorem registration_frame (r : Route) (tm : TagMap) (n : String) (v : Interface)
    (h : passesValidation r v) :
    ∃ tm1 e, register r tm n v = .ret (tm1, e) ∧
      (∀ m, m ≠ n → tm1.get m = tm.get m) ∧
      (tm.get n = none → tm1.len = tm.len + 1) ∧
      ((tm.get n).isSome = true → tm1.len = tm.len) := by
  refine ⟨(tm.addVal n (ValueOf v)).1, (tm.addVal n (ValueOf v)).2,
    register_of_passes r tm n v h, ?_, ?_, ?_⟩
  · intro m hm
    exact addVal_get_other tm n m _ hm
  · intro hn
    rw [addVal_len, hn]
    rfl
  · intro hn
    rw [addVal_len, if_pos hn]

/-- Witness of C9: a converter function registered on the empty registry. -/
theorem registration_frame_witness :
    passesValidation Route.viaFn instFn ∧
    ∃ tm1 e, register Route.viaFn globalTags "inst" instFn = .ret (tm1, e) ∧
      (∀ m, m ≠ "inst" → tm1.get m = globalTags.get m) ∧
      (globalTags.get "inst" = none → tm1.len = globalTags.len + 1) ∧
      ((globalTags.get "inst").isSome = true → tm1.len = globalTags.len) :=
  ⟨instFn_passes, registration_frame Route.viaFn globalTags "inst" instFn instFn_passes⟩

/-- C6. `GlobalMathContext` is initialised to precision 192 and mode
to-nearest-even, the pair `TestBigFloat` uses; and after copying it into another
variable and assigning the copy's `Precision` and `Mode`, the copy holds the new
fields while `GlobalMathContext` is unchanged. -/
theorem GlobalMathContext_default_and_copy (p : Nat) (m : RoundingMode) :
    GlobalMathContext.Precision = 192 ∧
    GlobalMathContext.Mode = RoundingMode.ToNearestEven ∧
    GlobalMathContext = TestBigFloat.context ∧
    (((Vars.start.copyGlobal).setPrecision p).setMode m).c = ⟨p, m⟩ ∧
    ((Vars.start.copyGlobal).setPrecision p).global = GlobalMathContext ∧
    ((Vars.start.copyGlobal).setMode m).global = GlobalMathContext ∧
    (((Vars.start.copyGlobal).setPrecision p).setMode m).global =
      GlobalMathContext :=
  ⟨rfl, rfl, rfl, rfl, rfl, rfl, rfl⟩

/-- C10, evaluated at the nil interface value: both registration functions panic
in `Type()` on the zero Value, before any kind is examined, so neither
`ErrNotConcrete` nor `ErrNotFunc` is returned. -/
theorem registration_of_nil_panics (tm : TagMap) (tagname : String) :
    tm.AddTagStruct tagname none =
        .panic "reflect: call of reflect.Value.Type on zero Value" ∧
      tm.AddTagFn tagname none =
        .panic "reflect: call of reflect.Value.Type on zero Value" :=
  ⟨rfl, rfl⟩

/-! ## The discard handler reads complete forms -/

theorem toks_length_pos (x : Syn) : 0 < (toks x).length := by
  cases x <;> simp [toks]

theorem toksItems_length_pos (b : Bracket) (items : SynItems) :
    0 < (toksItems b items).length := by
  cases items with
  | done => simp [toksItems]
  | item x more =>
    have := toks_length_pos x
    simp [toksItems]; omega
  | drop d more => simp [toksItems]

theorem skip_complete (fuel : Nat) :
    (∀ (x : Syn) (rest : List Token), (toks x).length ≤ fuel →
      skipForm fuel (toks x ++ rest) = some rest) ∧
    (∀ (b : Bracket) (items : SynItems) (rest : List Token),
      (toksItems b items).length ≤ fuel →
      skipItems fuel b (toksItems b items ++ rest) = some rest) := by
  induction fuel with
  | zero =>
    constructor
    · intro x rest h
      have := toks_length_pos x
      omega
    · intro b items rest h
      have := toksItems_length_pos b items
      omega
  | succ n ih =>
    obtain ⟨ihF, ihI⟩ := ih
    have formCase : ∀ (x : Syn) (rest : List Token), (toks x).length ≤ n + 1 →
        skipForm (n + 1) (toks x ++ rest) = some rest := by
      intro x rest h
      cases x with
      | atom a => simp [toks, skipForm]
      | tagged tag inner =>
        simp only [toks, List.length_cons] at h
        simp only [toks, List.cons_append, skipForm]
        exact ihF inner rest (by omega)
      | coll b items =>
        simp only [toks, List.length_cons] at h
        simp only [toks, List.cons_append, skipForm]
        exact ihI b items rest (by omega)
      | discard d next =>
        simp only [toks, List.length_cons, List.length_append] at h
        simp only [toks, List.cons_append, List.append_eq, List.append_assoc, skipForm]
        rw [ihF d (toks next ++ rest) (by omega)]
        simp only []
        exact ihF next rest (by omega)
    refine ⟨formCase, ?_⟩
    intro b items rest h
    cases items with
    | done => simp [toksItems, skipItems]
    | drop d more =>
      simp only [toksItems, List.length_cons, List.length_append] at h
      simp only [toksItems, List.cons_append, List.append_eq, List.append_assoc, skipItems]
      rw [ihF d (toksItems b more ++ rest) (by omega)]
      simp only []
      exact ihI b more rest (by omega)
    | item x more =>
      have hm := toksItems_length_pos b more
      have hx := toks_length_pos x
      simp only [toksItems, List.length_append] at h
      cases x with
      | atom a =>
        have h1 := ihF (Syn.atom a) (toksItems b more ++ rest) (by omega)
        simp only [toks, List.cons_append, List.nil_append] at h1
        simp only [toksItems, toks, List.cons_append, List.append_eq, List.nil_append, skipItems, h1]
        exact ihI b more rest (by omega)
      | tagged tag inner =>
        have h1 := ihF (Syn.tagged tag inner) (toksItems b more ++ rest) (by omega)
        simp only [toks, List.cons_append, List.append_eq, List.append_assoc] at h1
        simp only [toksItems, toks, List.cons_append, List.append_eq, List.append_assoc, skipItems, h1]
        exact ihI b more rest (by omega)
      | coll c items =>
        have h1 := ihF (Syn.coll c items) (toksItems b more ++ rest) (by omega)
        simp only [toks, List.cons_append, List.append_eq, List.append_assoc] at h1
        simp only [toksItems, toks, List.cons_append, List.append_eq, List.append_assoc, skipItems, h1]
        exact ihI b more rest (by omega)
      | discard d next =>
        simp only [toks, List.length_cons, List.length_append] at h
        simp only [toksItems, toks, List.cons_append, List.append_eq, List.append_assoc, skipItems]
        rw [ihF d (toks next ++ (toksItems b more ++ rest)) (by omega)]
        simp only []
        have h2 := ihI b (SynItems.item next more) rest
          (by simp only [toksItems, List.length_append]; omega)
        simp only [toksItems, List.append_assoc] at h2
        exact h2

theorem read_complete (fuel : Nat) :
    (∀ (x : Syn) (rest : List Token), wellFormed x = true → (toks x).length ≤ fuel →
      readForm fuel (toks x ++ rest) = some (value x, rest)) ∧
    (∀ (b : Bracket) (items : SynItems) (rest : List Token),
      wellFormedItems items = true → (toksItems b items).length ≤ fuel →
      readItems fuel b (toksItems b items ++ rest) = some (values items, rest)) := by
  induction fuel with
  | zero =>
    constructor
    · intro x rest _ h
      have := toks_length_pos x
      omega
    · intro b items rest _ h
      have := toksItems_length_pos b items
      omega
  | succ n ih =>
    obtain ⟨ihF, ihI⟩ := ih
    have skF := (skip_complete n).1
    have formCase : ∀ (x : Syn) (rest : List Token), wellFormed x = true →
        (toks x).length ≤ n + 1 →
        readForm (n + 1) (toks x ++ rest) = some (value x, rest) := by
      intro x rest wf h
      cases x with
      | atom a => simp [toks, readForm, value]
      | tagged tag inner =>
        simp only [toks, List.length_cons] at h
        simp only [wellFormed] at wf
        simp only [toks, List.cons_append, List.append_eq, readForm, value]
        rw [ihF inner rest wf (by omega)]
      | coll b items =>
        simp only [toks, List.length_cons] at h
        simp only [wellFormed, Bool.and_eq_true, Bool.or_eq_true, decide_eq_true_eq] at wf
        simp only [toks, List.cons_append, List.append_eq, readForm, value]
        rw [ihI b items rest wf.1 (by omega)]
        simp only []
        have hpar : ¬ (b = Bracket.map ∧ (values items).length % 2 ≠ 0) := by
          rintro ⟨hb, hodd⟩
          rcases wf.2 with h1 | h1
          · exact h1 hb
          · exact hodd h1
        rw [if_neg hpar]
      | discard d next =>
        simp only [toks, List.length_cons, List.length_append] at h
        simp only [wellFormed] at wf
        simp only [toks, List.cons_append, List.append_eq, List.append_assoc, readForm, value]
        rw [skF d (toks next ++ rest) (by omega)]
        simp only []
        exact ihF next rest wf (by omega)
    refine ⟨formCase, ?_⟩
    intro b items rest wf h
    cases items with
    | done => simp [toksItems, readItems, values]
    | drop d more =>
      simp only [toksItems, List.length_cons, List.length_append] at h
      simp only [wellFormedItems] at wf
      simp only [toksItems, List.cons_append, List.append_eq, List.append_assoc, readItems,
        values]
      rw [skF d (toksItems b more ++ rest) (by omega)]
      simp only []
      exact ihI b more rest wf (by omega)
    | item x more =>
      have hm := toksItems_length_pos b more
      have hx := toks_length_pos x
      simp only [toksItems, List.length_append] at h
      simp only [wellFormedItems, Bool.and_eq_true] at wf
      cases x with
      | atom a =>
        have h1 := ihF (Syn.atom a) (toksItems b more ++ rest) wf.1 (by omega)
        simp only [toks, List.cons_append, List.append_eq, List.nil_append] at h1
        simp only [toksItems, toks, List.cons_append, List.append_eq, List.nil_append,
          readItems, h1, values]
        rw [ihI b more rest wf.2 (by omega)]
      | tagged tag inner =>
        have h1 := ihF (Syn.tagged tag inner) (toksItems b more ++ rest) wf.1 (by omega)
        simp only [toks, List.cons_append, List.append_eq, List.append_assoc] at h1
        simp only [toksItems, toks, List.cons_append, List.append_eq, List.append_assoc,
          readItems, h1, values]
        rw [ihI b more rest wf.2 (by omega)]
      | coll c items =>
        have h1 := ihF (Syn.coll c items) (toksItems b more ++ rest) wf.1 (by omega)
        simp only [toks, List.cons_append, List.append_eq, List.append_assoc] at h1
        simp only [toksItems, toks, List.cons_append, List.append_eq, List.append_assoc,
          readItems, h1, values]
        rw [ihI b more rest wf.2 (by omega)]
      | discard d next =>
        simp only [toks, List.length_cons, List.length_append] at h
        simp only [toksItems, toks, List.cons_append, List.append_eq, List.append_assoc,
          readItems]
        rw [skF d (toks next ++ (toksItems b more ++ rest)) (by omega)]
        simp only []
        have wf2 : wellFormedItems (SynItems.item next more) = true := by
          simp only [wellFormedItems, Bool.and_eq_true]
          exact ⟨by simpa only [wellFormed] using wf.1, wf.2⟩
        have h2 := ihI b (SynItems.item next more) rest wf2
          (by simp only [toksItems, List.length_append]; omega)
        simp only [toksItems, List.append_assoc, values] at h2
        simp only [values, value]
        exact h2

theorem toks_discardAll (ds : List Syn) (f : Syn) :
    toks (discardAll ds f) = discardedRun ds ++ toks f := by
  induction ds with
  | nil => rfl
  | cons d ds ih => simp [discardAll, toks, discardedRun, ih]

theorem value_discardAll (ds : List Syn) (f : Syn) :
    value (discardAll ds f) = value f := by
  induction ds with
  | nil => rfl
  | cons d ds ih => simp [discardAll, value, ih]

theorem wellFormed_discardAll (ds : List Syn) (f : Syn) :
    wellFormed (discardAll ds f) = wellFormed f := by
  induction ds with
  | nil => rfl
  | cons d ds ih => simp [discardAll, wellFormed, ih]

theorem decodeTokens_toks (x : Syn) (wf : wellFormed x = true) :
    decodeTokens (toks x) = some (value x) := by
  have h := (read_complete (toks x).length).1 x [] wf (Nat.le_refl _)
  rw [List.append_nil] at h
  simp [decodeTokens, h]

theorem lexRun_append (p q : List Char) (st : LexState) :
    lexRun st (p ++ q) =
      match lexRun st p with
      | none => none
      | some (st1, out) =>
        match lexRun st1 q with
        | none => none
        | some (st2, more) => some (st2, out ++ more) := by
  induction p generalizing st with
  | nil =>
    simp only [List.nil_append, lexRun]
    cases lexRun st q with
    | none => rfl
    | some r => rfl
  | cons c p ih =>
    simp only [List.cons_append, List.append_eq, lexRun]
    cases lexStep st c with
    | none => rfl
    | some r =>
      obtain ⟨st1, out⟩ := r
      simp only []
      rw [ih st1]
      cases lexRun st1 p with
      | none => rfl
      | some r1 =>
        obtain ⟨st2, out1⟩ := r1
        simp only []
        cases lexRun st2 q with
        | none => rfl
        | some r2 =>
          obtain ⟨st3, out2⟩ := r2
          simp only [List.append_assoc]

theorem lex_append (pre text : String) (tp tt : List Token)
    (hp : lexRun LexState.idle pre.toList = some (LexState.idle, tp))
    (ht : lex text = some tt) : lex (pre ++ text) = some (tp ++ tt) := by
  unfold lex lexFrom at ht ⊢
  have happ : (pre ++ text).toList = pre.toList ++ text.toList := String.data_append pre text
  rw [happ, lexRun_append, hp]
  simp only []
  cases hr : lexRun LexState.idle text.toList with
  | none => rw [hr] at ht; simp at ht
  | some r =>
    obtain ⟨st2, more⟩ := r
    rw [hr] at ht
    simp only [] at ht ⊢
    cases he : lexEnd st2 with
    | none => rw [he] at ht; simp at ht
    | some last =>
      rw [he] at ht
      simp only [Option.some.injEq] at ht ⊢
      rw [← ht, List.append_assoc]

theorem UnmarshalString_of_lex (tags : Registry) (dest : ScalarKind) (input : String)
    (x : Syn) (hx : lex input = some (toks x)) (wf : wellFormed x = true) :
    UnmarshalString tags input dest = decodeScalar GlobalMathContext tags dest (value x) := by
  unfold UnmarshalString
  rw [hx]
  simp only [decodeTokens_toks x wf]

/-- C7. Discard forms are transparent to decoding. For every input text whose
tokens are discard-marked forms followed by a well-formed form `f`, decoding
into a scalar destination succeeds or fails exactly as decoding a text of `f`
alone does, with the same value, the one the destination assigns to `f`. Each
discard marker consumes exactly the next complete form, tag prefixes and nested
discards included. The same holds when the text of the discard-marked forms is
put before the text of `f`. The inputs of `TestDiscard` decode to the symbols
`bar` and `quux`; further inputs show the value reaching the destination with its
conversions and its errors. -/
theorem discards_are_transparent (tags : Registry) (dest : ScalarKind)
    (input fText : String) (ds : List Syn) (f : Syn)
    (hin : lex input = some (discardedRun ds ++ toks f))
    (hf : lex fText = some (toks f))
    (wf : wellFormed f = true) :
    UnmarshalString tags input dest = UnmarshalString tags fText dest ∧
    UnmarshalString tags input dest = decodeScalar GlobalMathContext tags dest (value f) ∧
    (∀ (d : Syn) (rest : List Token),
      skipForm (toks d).length (toks d ++ rest) = some rest) ∧
    (∀ pre : String, lexRun LexState.idle pre.toList = some (LexState.idle, discardedRun ds) →
      UnmarshalString tags (pre ++ fText) dest = UnmarshalString tags fText dest) ∧
    UnmarshalString noTags "#_ #zap #_ xyz foo bar" ScalarKind.Symbol =
      some (Decoded.symbol "bar") ∧
    UnmarshalString noTags "#_ #foo #foo #foo #_#_bar baz zip quux" ScalarKind.Symbol =
      some (Decoded.symbol "quux") ∧
    UnmarshalString noTags "#_ \"\\u0041\" d" ScalarKind.Symbol =
      some (Decoded.symbol "d") ∧
    UnmarshalString noTags "#_ a :kw" ScalarKind.Symbol = none ∧
    UnmarshalString noTags "#_ 5x d" ScalarKind.Symbol = none ∧
    UnmarshalString noTags "#_ [x #_ y] -5N" (ScalarKind.FixedInt true 64) =
      some (Decoded.int (-5)) ∧
    UnmarshalString noTags "#_ x 8223372036854775808" (ScalarKind.FixedInt true 64) =
      some (Decoded.int 8223372036854775808) ∧
    UnmarshalString noTags "#_ x 9223372036854775808" (ScalarKind.FixedInt true 64) = none ∧
    UnmarshalString noTags "#_ x 9223372036854775808" ScalarKind.BigInt =
      some (Decoded.int 9223372036854775808) ∧
    UnmarshalString noTags "#_ #t (1 2) 0" ScalarKind.BigDecimal =
      some (Decoded.float 0 0) ∧
    UnmarshalString noTags "#_ x 1M" ScalarKind.BigDecimal =
      some (Decoded.float 3138550867693340381917894711603833208051177722232017256448
        (-191)) ∧
    UnmarshalString noTags "#_ x 0.1" ScalarKind.Float64 =
      some (Decoded.float 7205759403792794 (-56)) ∧
    UnmarshalString noTags "#_ x 1.5" (ScalarKind.FixedInt true 64) = none ∧
    UnmarshalString noTags "#_ x 1.5M" (ScalarKind.FixedInt true 64) = none ∧
    UnmarshalString noTags "#_ x [a]" ScalarKind.Symbol = none ∧
    UnmarshalString noTags "#_ x #sym foo" ScalarKind.Symbol = none ∧
    UnmarshalString symTags "#_ x #sym foo" ScalarKind.Symbol =
      some (Decoded.symbol "foo") ∧
    UnmarshalString symTags "#_ x #sym foo" ScalarKind.Keyword = none := by
  have hwhole : lex input = some (toks (discardAll ds f)) := by
    rw [toks_discardAll]
    exact hin
  have hval : UnmarshalString tags input dest =
      decodeScalar GlobalMathContext tags dest (value f) := by
    rw [UnmarshalString_of_lex tags dest input (discardAll ds f) hwhole
      (by rw [wellFormed_discardAll]; exact wf), value_discardAll]
  have hplain : UnmarshalString tags fText dest =
      decodeScalar GlobalMathContext tags dest (value f) :=
    UnmarshalString_of_lex tags dest fText f hf wf
  have hpre : ∀ pre : String,
      lexRun LexState.idle pre.toList = some (LexState.idle, discardedRun ds) →
      UnmarshalString tags (pre ++ fText) dest = UnmarshalString tags fText dest := by
    intro pre hp
    have hcat : lex (pre ++ fText) = some (toks (discardAll ds f)) := by
      rw [toks_discardAll]
      exact lex_append pre fText _ _ hp hf
    rw [UnmarshalString_of_lex tags dest (pre ++ fText) (discardAll ds f) hcat
      (by rw [wellFormed_discardAll]; exact wf), value_discardAll, hplain]
  refine ⟨hval.trans hplain.symm, hval,
    fun d rest => (skip_complete _).1 d rest (Nat.le_refl _), hpre, ?_⟩
  decide

/-- Witness of C7: the text `#_ "\u0041" d`, whose discarded form is a string
with a unicode escape, decodes as the text `d` alone does. -/
theorem discards_are_transparent_witness :
    lex "#_ \"\\u0041\" d" =
      some (discardedRun [Syn.atom (Atom.str "A")] ++ toks (Syn.atom (Atom.symbol "d"))) ∧
    lex "d" = some (toks (Syn.atom (Atom.symbol "d"))) ∧
    wellFormed (Syn.atom (Atom.symbol "d")) = true ∧
    UnmarshalString noTags "#_ \"\\u0041\" d" ScalarKind.Symbol =
      UnmarshalString noTags "d" ScalarKind.Symbol :=
  ⟨by decide, by decide, by decide,
    (discards_are_transparent noTags ScalarKind.Symbol "#_ \"\\u0041\" d" "d"
      [Syn.atom (Atom.str "A")] (Syn.atom (Atom.symbol "d"))
      (by decide) (by decide) (by decide)).1⟩

end Edn
